import Mathlib

/-!
Verification of the voice-notes application (`index.tsx`).

Text is modelled as `List Char` (JS strings are character sequences); the
application state (`AppState`) carries the in-memory note, the history list,
the editable DOM regions with their placeholder flags, the two localStorage
slots, and the pending auto-save timer.  Remote AI calls (`generateContent`)
and the markdown renderer (`marked.parse`) are external collaborators and are
passed in as oracle parameters.  Counters (`transcriptionCalls`,
`commitCalls`, `draftWriteTimes`) instrument the corresponding side effects
(`generateContent` for transcription, `saveCurrentNoteToHistory` entry,
`localStorage.setItem(DRAFT_KEY)`), which are otherwise unobservable in a
pure model.
-/

/-- JS string, modelled as a list of characters. -/
abbrev Str := List Char

/-- Characters trimmed by `String.prototype.trim` / matched by `\s`
(restricted to the ASCII whitespace actually occurring in this app's data). -/
def isWsChar (c : Char) : Bool := c = ' ' || c = '\t' || c = '\n' || c = '\r'

/-- JS `s.trim()`: remove leading and trailing whitespace. -/
def trimStr (s : Str) : Str :=
  ((s.dropWhile isWsChar).reverse.dropWhile isWsChar).reverse

/-- JS `s.split('\n')` (keeps empty segments, `''.split` gives `['']`). -/
def splitLinesJS (s : Str) : List Str := s.splitOn '\n'

/-- Convenience: characters of a string literal. -/
def strOf (s : String) : Str := s.toList

/-- The `Note` interface of `index.tsx`. -/
structure Note where
  id : Str
  title : Str
  rawTranscription : Str
  polishedNote : Str
  elaboratedNote : Str
  timestamp : Nat
deriving DecidableEq, Repr

/-- A contenteditable rich-text region: its `innerHTML`, whether the
`placeholder-active` class is set, and its `placeholder` attribute. -/
structure Region where
  innerHTML : Str
  placeholderActive : Bool
  placeholder : Str
deriving DecidableEq, Repr

/-- The mutable fields of `VoiceNotesApp` relevant to the specification,
plus the two localStorage slots and instrumentation counters. -/
structure AppState where
  currentNote : Option Note
  notesHistory : List Note
  editorTitleText : Str
  editorTitlePlaceholderActive : Bool
  titlePlaceholder : Str
  polished : Region
  elaborated : Region
  recordingStatus : Str
  isRecording : Bool
  audioChunks : List Nat
  storedHistory : Option (List Note)
  storedDraft : Option Note
  autoSaveTimeoutId : Option Nat
  draftWriteTimes : List Nat
  transcriptionCalls : Nat
  commitCalls : Nat
deriving DecidableEq, Repr

/-- `MAX_HISTORY_ITEMS` from `index.tsx`. -/
def MAX_HISTORY_ITEMS : Nat := 20

/-- `AUTO_SAVE_DELAY` from `index.tsx` (milliseconds). -/
def AUTO_SAVE_DELAY : Nat := 1500

/-- Status messages written to `recordingStatus` by the source. -/
def statusReady : Str := strOf "Ready to record"

def statusNoAudio : Str := strOf "No audio data captured. Please try again."

def statusConverting : Str := strOf "Converting audio..."

def statusProcessingError : Str := strOf "Error processing recording. Please try again."

def statusGettingTranscription : Str := strOf "Getting transcription..."

def statusTranscriptionComplete : Str := strOf "Transcription complete. Generating notes..."

def statusNotesComplete : Str := strOf "Notes complete. Ready for next recording."

def statusTranscriptionEmpty : Str := strOf "Transcription failed or returned empty."

def statusTranscriptionError : Str := strOf "Error getting transcription. Please try again."

def statusPolishing : Str := strOf "Polishing note..."

def statusElaborating : Str := strOf "Elaborating note..."

/-- Inline error HTML written into the polished region when transcription throws. -/
def transcriptionErrorHtml (e : Str) : Str :=
  strOf "<p><em>Error during transcription: " ++ e ++ strOf "</em></p>"

/-- Inline HTML when transcription returns empty. -/
def couldNotTranscribeHtml : Str :=
  strOf "<p><em>Could not transcribe audio. Please try again.</em></p>"

/-- Inline error HTML written into the polished region when polishing throws. -/
def polishErrorHtml (e : Str) : Str :=
  strOf "<p><em>Error during polishing: " ++ e ++ strOf "</em></p>"

/-- Inline HTML when polishing returns empty. -/
def polishEmptyHtml : Str :=
  strOf "<p><em>Polishing returned empty. Raw transcription is available.</em></p>"

/-- Inline error HTML written into the elaborated region when elaboration throws. -/
def elaborationErrorHtml (e : Str) : Str :=
  strOf "<p><em>Error during elaboration: " ++ e ++ strOf "</em></p>"

/-- Inline HTML when elaboration returns empty. -/
def elaborationEmptyHtml : Str :=
  strOf "<p><em>Elaboration returned empty.</em></p>"

/-- `updateCurrentNoteFromDOM`, field part: refresh a note's textual fields
from the live DOM, treating a placeholder-active region as empty and a title
equal to the placeholder (or blank) as empty. -/
def refreshNoteFromDOM (st : AppState) (n : Note) : Note :=
  let currentTitle := trimStr st.editorTitleText
  { n with
    title := if currentTitle = st.titlePlaceholder ∨ currentTitle = [] then [] else currentTitle
    polishedNote := if st.polished.placeholderActive then [] else st.polished.innerHTML
    elaboratedNote := if st.elaborated.placeholderActive then [] else st.elaborated.innerHTML }

/-- `updateCurrentNoteFromDOM` from `index.tsx`. -/
def updateCurrentNoteFromDOM (st : AppState) : AppState :=
  match st.currentNote with
  | none => st
  | some n => { st with currentNote := some (refreshNoteFromDOM st n) }

/-- The "effectively empty" test of `saveCurrentNoteToHistory`: all four
textual fields blank after trimming. -/
def effectivelyEmpty (n : Note) : Bool :=
  (trimStr n.rawTranscription).isEmpty && (trimStr n.polishedNote).isEmpty &&
    (trimStr n.elaboratedNote).isEmpty && (trimStr n.title).isEmpty

/-- The history-list update of `saveCurrentNoteToHistory` (lines 947-959):
remove the first entry with the saved note's id (`findIndex` + `splice`),
`unshift` the note, then truncate to `MAX_HISTORY_ITEMS` (`slice(0, MAX)`). -/
def commitList (noteToSave : Note) (history : List Note) : List Note :=
  let afterRemove := history.eraseP (fun n => n.id == noteToSave.id)
  (noteToSave :: afterRemove).take MAX_HISTORY_ITEMS

/-- `saveCurrentNoteToHistory` from `index.tsx`; `now` is `Date.now()`.
`commitCalls` counts invocations of this function (the bump is recorded at
the end; no operation reads the counter, so its position is unobservable). -/
def saveCurrentNoteToHistory (now : Nat) (st0 : AppState) : AppState :=
  let st :=
    match st0.currentNote with
    | none => st0
    | some n =>
      -- updateCurrentNoteFromDOM, inlined
      let cur := refreshNoteFromDOM st0 n
      let st1 := { st0 with currentNote := some cur }
      if effectivelyEmpty cur then st1
      else
        let noteToSave := { cur with timestamp := now }
        let newHistory := commitList noteToSave st1.notesHistory
        -- saveHistory: persist the in-memory list (renderHistory is DOM-only)
        { st1 with notesHistory := newHistory, storedHistory := some newHistory }
  { st with commitCalls := st.commitCalls + 1 }

/-- `saveDraft` from `index.tsx`: with `immediate = false` a pending debounce
timer is cleared; the current note is refreshed from the DOM and persisted to
the draft slot.  `now` records when the write happens (instrumentation). -/
def saveDraft (now : Nat) (immediate : Bool) (st0 : AppState) : AppState :=
  let st :=
    if st0.autoSaveTimeoutId.isSome ∧ ¬ immediate then
      { st0 with autoSaveTimeoutId := none }
    else st0
  match st.currentNote with
  | none => st
  | some _ =>
    let st := updateCurrentNoteFromDOM st
    { st with storedDraft := st.currentNote, draftWriteTimes := st.draftWriteTimes ++ [now] }

/-- `scheduleAutoSave`: clear any pending timer and set a new one that will
run `saveDraft` after `AUTO_SAVE_DELAY`; modelled by the absolute fire time. -/
def scheduleAutoSave (now : Nat) (st : AppState) : AppState :=
  { st with autoSaveTimeoutId := some (now + AUTO_SAVE_DELAY) }

/-- Event-loop step: reaching wall-clock time `t`, a pending timeout due at
`τ ≤ t` fires and runs its `saveDraft` callback (non-immediate). -/
def advanceTo (t : Nat) (st : AppState) : AppState :=
  match st.autoSaveTimeoutId with
  | some τ => if τ ≤ t then saveDraft τ false st else st
  | none => st

/-- Let a pending debounce timer (if any) fire. -/
def settle (st : AppState) : AppState :=
  match st.autoSaveTimeoutId with
  | some τ => saveDraft τ false st
  | none => st

/-- A sequence of edit events at the given (chronological) times: each edit
first lets any due timer fire, then runs the `input` listener, i.e.
`scheduleAutoSave`. -/
def runEditTrace : List Nat → AppState → AppState
  | [], st => st
  | t :: ts, st => runEditTrace ts (scheduleAutoSave t (advanceTo t st))

/-- Set the polished region to its placeholder (placeholder-active). -/
def setPolishedPlaceholder (st : AppState) : AppState :=
  { st with polished :=
      { st.polished with innerHTML := st.polished.placeholder, placeholderActive := true } }

/-- Set the elaborated region to its placeholder (placeholder-active). -/
def setElaboratedPlaceholder (st : AppState) : AppState :=
  { st with elaborated :=
      { st.elaborated with innerHTML := st.elaborated.placeholder, placeholderActive := true } }

/-- First char is `'#'` (JS `line.startsWith('#')`). -/
def startsWithHash (l : Str) : Bool :=
  match l with
  | c :: _ => c = '#'
  | [] => false

/-- JS `line.replace(/^#+\s+/, '')`: if the line starts with a run of `'#'`
followed by at least one whitespace character, drop both runs; otherwise the
line is unchanged. -/
def stripHashMarks (line : Str) : Str :=
  let rest := line.dropWhile (fun c => c = '#')
  if rest.length < line.length ∧ (rest.takeWhile isWsChar) ≠ [] then
    rest.dropWhile isWsChar
  else line

/-- Character class of `/^[\*_\`#\->\s\[\]\(.\d)]+/` (leading markdown
decoration; 96 is the backtick). -/
def isLeadDecorChar (c : Char) : Bool :=
  c = '*' || c = '_' || c.toNat = 96 || c = '#' || c = '-' || c = '>' ||
    c = '[' || c = ']' || c = '(' || c = '.' || c.isDigit || c = ')' || isWsChar c

/-- Character class of `/[\*_\`#]+$/` (trailing markdown decoration). -/
def isTrailDecorChar (c : Char) : Bool :=
  c = '*' || c = '_' || c.toNat = 96 || c = '#'

/-- JS `line.replace(/^[\*_\`#\->\s\[\]\(.\d)]+/, '')`. -/
def stripLeadingDecor (l : Str) : Str := l.dropWhile isLeadDecorChar

/-- JS `potentialTitle.replace(/[\*_\`#]+$/, '')`. -/
def stripTrailingDecor (l : Str) : Str :=
  (l.reverse.dropWhile isTrailDecorChar).reverse

/-- The candidate fallback title computed from one line (strip leading and
trailing decoration, then trim). -/
def fallbackCandidate (l : Str) : Str :=
  trimStr (stripTrailingDecor (stripLeadingDecor l))

/-- `substring(0, 60)` plus `'...'` when longer than 60. -/
def truncate60 (t : Str) : Str :=
  t.take 60 ++ (if 60 < t.length then strOf "..." else [])

/-- First loop of the title-inference block: the first line starting with
`'#'` whose stripped text is non-empty. -/
def findHeadingTitle : List Str → Option Str
  | [] => none
  | l :: ls =>
    if startsWithHash l then
      let title := trimStr (stripHashMarks l)
      if title ≠ [] then some title else findHeadingTitle ls
    else findHeadingTitle ls

/-- Second loop: the first non-empty line whose decorated-stripped text is
longer than 3 characters, truncated to 60 characters. -/
def findFallbackTitle : List Str → Option Str
  | [] => none
  | l :: ls =>
    if l ≠ [] then
      let potentialTitle := fallbackCandidate l
      if 3 < potentialTitle.length then some (truncate60 potentialTitle)
      else findFallbackTitle ls
    else findFallbackTitle ls

/-- The full title-inference block of `getPolishedNote` (lines 680-731):
returns the resulting `editorTitle` text and `placeholder-active` flag, given
the polished text and the current title state. -/
def inferTitle (polishedText curText : Str) (curFlag : Bool) (placeholder : Str) :
    Str × Bool :=
  match findHeadingTitle ((splitLinesJS polishedText).map trimStr) with
  | some t => (t, false)
  | none =>
    match findFallbackTitle ((splitLinesJS polishedText).map trimStr) with
    | some t => (t, false)
    | none =>
      let currentEditorText := trimStr curText
      if currentEditorText = [] ∨ currentEditorText = placeholder then (placeholder, true)
      else (curText, curFlag)

/-- `getPolishedNote` from `index.tsx`; `marked` is the opaque markdown
renderer, `outcome` the result of the remote polish call. -/
def getPolishedNote (marked : Str → Str) (outcome : Except Str Str) (now : Nat)
    (st : AppState) : AppState :=
  match st.currentNote with
  | none => setPolishedPlaceholder st
  | some cur =>
    if (trimStr cur.rawTranscription).isEmpty then setPolishedPlaceholder st
    else
      let st := { st with recordingStatus := statusPolishing }
      match outcome with
      | Except.error e =>
        { st with polished := { st.polished with innerHTML := polishErrorHtml e } }
      | Except.ok polishedText =>
        if polishedText.isEmpty then
          { st with polished := { st.polished with innerHTML := polishEmptyHtml } }
        else
          let htmlContent := marked polishedText
          let st := { st with polished := { st.polished with innerHTML := htmlContent } }
          let st :=
            if (trimStr polishedText).isEmpty then
              { st with polished :=
                  { st.polished with innerHTML := st.polished.placeholder,
                                     placeholderActive := true } }
            else
              { st with polished := { st.polished with placeholderActive := false } }
          let t := inferTitle polishedText st.editorTitleText
            st.editorTitlePlaceholderActive st.titlePlaceholder
          let st := { st with editorTitleText := t.1, editorTitlePlaceholderActive := t.2 }
          let st :=
            match st.currentNote with
            | some c => { st with currentNote := some { c with polishedNote := htmlContent } }
            | none => st
          scheduleAutoSave now st

/-- `getElaboratedNote` from `index.tsx`. -/
def getElaboratedNote (marked : Str → Str) (outcome : Except Str Str) (now : Nat)
    (st : AppState) : AppState :=
  match st.currentNote with
  | none => setElaboratedPlaceholder st
  | some cur =>
    if (trimStr cur.rawTranscription).isEmpty then setElaboratedPlaceholder st
    else
      let st := { st with recordingStatus := statusElaborating }
      match outcome with
      | Except.error e =>
        { st with elaborated := { st.elaborated with innerHTML := elaborationErrorHtml e } }
      | Except.ok elaboratedText =>
        if elaboratedText.isEmpty then
          { st with elaborated := { st.elaborated with innerHTML := elaborationEmptyHtml } }
        else
          let htmlContent := marked elaboratedText
          let st := { st with elaborated := { st.elaborated with innerHTML := htmlContent } }
          let st :=
            if (trimStr elaboratedText).isEmpty then
              { st with elaborated :=
                  { st.elaborated with innerHTML := st.elaborated.placeholder,
                                       placeholderActive := true } }
            else
              { st with elaborated := { st.elaborated with placeholderActive := false } }
          let st :=
            match st.currentNote with
            | some c => { st with currentNote := some { c with elaboratedNote := htmlContent } }
            | none => st
          scheduleAutoSave now st

/-- `getTranscription` from `index.tsx`: one remote transcription call
(`transcriptionCalls` counts the `generateContent` invocation), on non-empty
text append it to the raw transcript and run both enrichment calls; the
`finally` block always commits the current note to history. -/
def getTranscription (marked : Str → Str) (trOut polOut elaOut : Except Str Str)
    (now : Nat) (st0 : AppState) : AppState :=
  let st := { st0 with recordingStatus := statusGettingTranscription,
                       transcriptionCalls := st0.transcriptionCalls + 1 }
  let st :=
    match trOut with
    | Except.error e =>
      { st with recordingStatus := statusTranscriptionError,
                polished := { st.polished with innerHTML := transcriptionErrorHtml e } }
    | Except.ok text =>
      if text.isEmpty ∨ st.currentNote.isNone then
        { st with recordingStatus := statusTranscriptionEmpty,
                  polished := { st.polished with innerHTML := couldNotTranscribeHtml } }
      else
        match st.currentNote with
        | none => st
        | some cur =>
          let st := { st with
            currentNote := some
              { cur with rawTranscription := trimStr (cur.rawTranscription ++ ' ' :: text) },
            recordingStatus := statusTranscriptionComplete }
          let st := getPolishedNote marked polOut now st
          let st := getElaboratedNote marked elaOut now st
          { st with recordingStatus := statusNotesComplete }
  saveCurrentNoteToHistory now st

/-- `processAudio` from `index.tsx`: a zero-size blob reports "no audio" and
stops; otherwise the blob is base64-converted (`conv` is the FileReader
outcome) and handed to `getTranscription`. -/
def processAudio (marked : Str → Str) (conv : Except Str Unit)
    (trOut polOut elaOut : Except Str Str) (now : Nat) (blobSize : Nat)
    (st : AppState) : AppState :=
  if blobSize = 0 then { st with recordingStatus := statusNoAudio }
  else
    let st := { st with recordingStatus := statusConverting }
    match conv with
    | Except.error _ => { st with recordingStatus := statusProcessingError }
    | Except.ok _ => getTranscription marked trOut polOut elaOut now st

/-- The `mediaRecorder.onstop` handler: with no captured chunks, report "no
audio"; otherwise flush the chunks into a blob (size = sum of chunk sizes)
and process it.  Stream teardown and `stopLiveDisplay` touch no modelled
state. -/
def onStop (marked : Str → Str) (conv : Except Str Unit)
    (trOut polOut elaOut : Except Str Str) (now : Nat) (st : AppState) : AppState :=
  if st.audioChunks.isEmpty then { st with recordingStatus := statusNoAudio }
  else
    processAudio marked conv trOut polOut elaOut now (st.audioChunks.foldl (· + ·) 0) st

/-- `createNewNote` from `index.tsx` (id built from `Date.now()`). -/
def createNewNote (now : Nat) (saveCurrent : Bool) (st0 : AppState) : AppState :=
  let st := if saveCurrent then saveCurrentNoteToHistory now st0 else st0
  let fresh : Note :=
    { id := strOf "note_" ++ (Nat.repr now).toList, title := [], rawTranscription := [],
      polishedNote := [], elaboratedNote := [], timestamp := now }
  let st := { st with currentNote := some fresh }
  let st := setElaboratedPlaceholder st
  let st := setPolishedPlaceholder st
  let st := { st with editorTitleText := st.titlePlaceholder,
                      editorTitlePlaceholderActive := true,
                      recordingStatus := statusReady }
  let st := if st.isRecording then { st with isRecording := false } else st
  saveDraft now true st

/-- `loadNote` from `index.tsx`: look the note up (the reference is captured
before the commit), commit the currently open note, copy the found note into
`currentNote`, populate the three regions, and persist the draft. -/
def loadNote (now : Nat) (noteId : Str) (st0 : AppState) : AppState :=
  match st0.notesHistory.find? (fun n => n.id == noteId) with
  | none => st0
  | some noteToLoad =>
    let st := saveCurrentNoteToHistory now st0
    let st := { st with currentNote := some noteToLoad }
    let st :=
      if noteToLoad.title.isEmpty then
        { st with editorTitleText := st.titlePlaceholder, editorTitlePlaceholderActive := true }
      else
        { st with editorTitleText := noteToLoad.title, editorTitlePlaceholderActive := false }
    let st :=
      if noteToLoad.elaboratedNote.isEmpty then setElaboratedPlaceholder st
      else { st with elaborated :=
        { st.elaborated with innerHTML := noteToLoad.elaboratedNote, placeholderActive := false } }
    let st :=
      if noteToLoad.polishedNote.isEmpty then setPolishedPlaceholder st
      else { st with polished :=
        { st.polished with innerHTML := noteToLoad.polishedNote, placeholderActive := false } }
    saveDraft now true st

/-- `loadHistory` from `index.tsx`: parse the stored history into memory
(no truncation); an absent slot leaves the list as is. -/
def loadHistoryOp (st : AppState) : AppState :=
  match st.storedHistory with
  | none => st
  | some h => { st with notesHistory := h }

/-- `loadDraft` from `index.tsx`: restore the stored draft note and populate
the three regions from it. -/
def loadDraftOp (st0 : AppState) : AppState :=
  match st0.storedDraft with
  | none => st0
  | some draftNote =>
    let st := { st0 with currentNote := some draftNote }
    let st :=
      if draftNote.title.isEmpty then
        { st with editorTitleText := st.titlePlaceholder, editorTitlePlaceholderActive := true }
      else
        { st with editorTitleText := draftNote.title, editorTitlePlaceholderActive := false }
    let st :=
      if draftNote.elaboratedNote.isEmpty then setElaboratedPlaceholder st
      else { st with elaborated :=
        { st.elaborated with innerHTML := draftNote.elaboratedNote, placeholderActive := false } }
    let st :=
      if draftNote.polishedNote.isEmpty then setPolishedPlaceholder st
      else { st with polished :=
        { st.polished with innerHTML := draftNote.polishedNote, placeholderActive := false } }
    st

/-- The on-screen state a user observes: the title region and both rich-text
regions (content and placeholder flags). -/
structure ScreenState where
  titleText : Str
  titlePlaceholderActive : Bool
  polishedHTML : Str
  polishedPlaceholderActive : Bool
  elaboratedHTML : Str
  elaboratedPlaceholderActive : Bool
deriving DecidableEq, Repr

/-- Project the on-screen state out of an `AppState`. -/
def screenOf (st : AppState) : ScreenState :=
  { titleText := st.editorTitleText
    titlePlaceholderActive := st.editorTitlePlaceholderActive
    polishedHTML := st.polished.innerHTML
    polishedPlaceholderActive := st.polished.placeholderActive
    elaboratedHTML := st.elaborated.innerHTML
    elaboratedPlaceholderActive := st.elaborated.placeholderActive }

/-- The screen produced by populating the editor from note `n` with the given
placeholder attributes (the common populate block of `loadNote`/`loadDraft`). -/
def populateScreen (n : Note) (tph pph eph : Str) : ScreenState :=
  { titleText := if n.title.isEmpty then tph else n.title
    titlePlaceholderActive := n.title.isEmpty
    polishedHTML := if n.polishedNote.isEmpty then pph else n.polishedNote
    polishedPlaceholderActive := n.polishedNote.isEmpty
    elaboratedHTML := if n.elaboratedNote.isEmpty then eph else n.elaboratedNote
    elaboratedPlaceholderActive := n.elaboratedNote.isEmpty }

/-! ## General list lemmas used by several proofs -/

/-- Erasing within a prefix that contains no match: the first matching
element is removed, the rest is unchanged. -/
theorem eraseP_append_first_match {p : Note → Bool} (old : Note) (h₂ : List Note)
    (hp : p old = true) :
    ∀ h₁ : List Note, (∀ e ∈ h₁, p e = false) →
      (h₁ ++ old :: h₂).eraseP p = h₁ ++ h₂ := by
  intro h₁
  induction h₁ with
  | nil => intro _; simp [List.eraseP_cons, hp]
  | cons a t ih =>
    intro hall
    have ha : p a = false := hall a (by simp)
    simp only [List.cons_append, List.eraseP_cons, ha, cond_false]
    rw [ih (fun e he => hall e (by simp [he]))]

/-- A `find?` that succeeds on a prefix (`take`) succeeds identically on the
whole list. -/
theorem find?_take_eq_some {α : Type} {p : α → Bool} :
    ∀ (l : List α) (k : Nat) (x : α), (l.take k).find? p = some x → l.find? p = some x := by
  intro l
  induction l with
  | nil => intro k x hx; simp at hx
  | cons a t ih =>
    intro k x hx
    cases k with
    | zero => simp at hx
    | succ k =>
      rw [List.take_succ_cons] at hx
      cases hpa : p a
      · simp [hpa] at hx ⊢
        exact ih k x hx
      · simp [hpa] at hx ⊢
        exact hx

/-- Erasing an element that cannot match `q` does not change `find? q`. -/
theorem find?_eraseP_of_disjoint {α : Type} {p q : α → Bool}
    (hpq : ∀ x, p x = true → q x = false) :
    ∀ l : List α, (l.eraseP p).find? q = l.find? q := by
  intro l
  induction l with
  | nil => simp
  | cons a t ih =>
    cases hpa : p a
    · cases hqa : q a
      · simp [List.eraseP_cons, hpa, hqa, ih]
      · simp [List.eraseP_cons, hpa, hqa]
    · have hqa := hpq a hpa
      simp [List.eraseP_cons, hpa, hqa]

/-! ## Claim C1 -/

/-- Claim C1: if the current Note, refreshed from the DOM, has all four
textual fields blank, `saveCurrentNoteToHistory` leaves the in-memory and
persisted history unchanged; consequently every Note a commit ever inserts
into the history has at least one non-blank textual field. -/
theorem commit_skips_blank_and_inserts_nonblank (st : AppState) (now : Nat) :
    (∀ n, st.currentNote = some n → effectivelyEmpty (refreshNoteFromDOM st n) = true →
      (saveCurrentNoteToHistory now st).notesHistory = st.notesHistory ∧
      (saveCurrentNoteToHistory now st).storedHistory = st.storedHistory) ∧
    (∀ m ∈ (saveCurrentNoteToHistory now st).notesHistory,
      m ∈ st.notesHistory ∨ effectivelyEmpty m = false) := by
  constructor
  · intro n hn hempty
    simp [saveCurrentNoteToHistory, hn, hempty]
  · intro m hm
    rcases hcur : st.currentNote with _ | n
    · simp only [saveCurrentNoteToHistory, hcur] at hm
      exact Or.inl hm
    · by_cases hempty : effectivelyEmpty (refreshNoteFromDOM st n) = true
      · simp [saveCurrentNoteToHistory, hcur, hempty] at hm
        exact Or.inl hm
      · simp only [Bool.not_eq_true] at hempty
        simp only [saveCurrentNoteToHistory, hcur, hempty, Bool.false_eq_true, if_false] at hm
        have hm2 : m ∈ (({ refreshNoteFromDOM st n with timestamp := now } ::
            st.notesHistory.eraseP
              (fun e => e.id == (refreshNoteFromDOM st n).id)).take MAX_HISTORY_ITEMS) := by
          simpa [commitList] using hm
        have hm' := List.take_subset _ _ hm2
        rcases List.mem_cons.mp hm' with h | h
        · right
          rw [h]
          show effectivelyEmpty (refreshNoteFromDOM st n) = false
          exact hempty
        · exact Or.inl ((List.eraseP_sublist _).mem h)

/-! ## Claim C3 -/

/-- Claim C3: committing a Note whose id already occurs in the history list
removes the previous entry with that id, puts the Note at the front, and
keeps all other entries in relative order (one entry with that id results);
committing a Note with a fresh id inserts it at the front, keeping existing
entries in order (truncated to the cap; below the cap nothing is dropped). -/
theorem commitList_replace_or_insert_front :
    (∀ (n old : Note) (h₁ h₂ : List Note),
      old.id = n.id → (∀ e ∈ h₁, e.id ≠ n.id) → (∀ e ∈ h₂, e.id ≠ n.id) →
      (h₁ ++ old :: h₂).length ≤ MAX_HISTORY_ITEMS →
      commitList n (h₁ ++ old :: h₂) = n :: (h₁ ++ h₂) ∧
      (commitList n (h₁ ++ old :: h₂)).countP (fun e => e.id == n.id) = 1) ∧
    (∀ (n : Note) (h : List Note), (∀ e ∈ h, e.id ≠ n.id) →
      commitList n h = (n :: h).take MAX_HISTORY_ITEMS ∧
      (h.length < MAX_HISTORY_ITEMS → commitList n h = n :: h)) := by
  constructor
  · intro n old h₁ h₂ hold h1 h2 hlen
    have herase : (h₁ ++ old :: h₂).eraseP (fun e => e.id == n.id) = h₁ ++ h₂ := by
      refine eraseP_append_first_match old h₂ (by simp [hold]) h₁ ?_
      intro e he
      simpa using h1 e he
    have hlen' : (n :: (h₁ ++ h₂)).length ≤ MAX_HISTORY_ITEMS := by
      simpa using hlen
    have hmain : commitList n (h₁ ++ old :: h₂) = n :: (h₁ ++ h₂) := by
      simp only [commitList, herase]
      exact List.take_of_length_le hlen'
    refine ⟨hmain, ?_⟩
    rw [hmain]
    have hc1 : h₁.countP (fun e => e.id == n.id) = 0 := by
      rw [List.countP_eq_zero]
      intro e he
      simpa using h1 e he
    have hc2 : h₂.countP (fun e => e.id == n.id) = 0 := by
      rw [List.countP_eq_zero]
      intro e he
      simpa using h2 e he
    simp [List.countP_cons, List.countP_append, hc1, hc2]
  · intro n h hall
    have herase : h.eraseP (fun e => e.id == n.id) = h := by
      refine List.eraseP_of_forall_not ?_
      intro e he
      simpa using hall e he
    constructor
    · simp [commitList, herase]
    · intro hlt
      simp only [commitList, herase]
      exact List.take_of_length_le (by simpa using hlt)

/-! ## Claim C5 -/

/-- Claim C5: stopping a recording with zero captured audio chunks reports
"no audio", makes no transcription call, and changes neither the in-memory
nor the persisted history (no commit at all happens). -/
theorem onStop_no_chunks_no_transcription (marked : Str → Str) (conv : Except Str Unit)
    (trOut polOut elaOut : Except Str Str) (now : Nat) (st : AppState)
    (hchunks : st.audioChunks = []) :
    (onStop marked conv trOut polOut elaOut now st).recordingStatus = statusNoAudio ∧
    (onStop marked conv trOut polOut elaOut now st).transcriptionCalls =
      st.transcriptionCalls ∧
    (onStop marked conv trOut polOut elaOut now st).commitCalls = st.commitCalls ∧
    (onStop marked conv trOut polOut elaOut now st).notesHistory = st.notesHistory ∧
    (onStop marked conv trOut polOut elaOut now st).storedHistory = st.storedHistory := by
  simp [onStop, hchunks]

/-! ## Claim C9 -/

/-- Claim C9: an immediate `saveDraft` does not cancel a pending debounced
save: the timer stays pending, the draft is persisted now, and when the
timer later fires the draft is persisted a second time. -/
theorem saveDraft_immediate_keeps_pending_timer (st : AppState) (now τ : Nat) (c : Note)
    (htimer : st.autoSaveTimeoutId = some τ) (hcur : st.currentNote = some c) :
    (saveDraft now true st).autoSaveTimeoutId = some τ ∧
    (saveDraft now true st).draftWriteTimes = st.draftWriteTimes ++ [now] ∧
    (settle (saveDraft now true st)).draftWriteTimes = st.draftWriteTimes ++ [now, τ] := by
  have h1 : saveDraft now true st =
      { updateCurrentNoteFromDOM st with
          storedDraft := (updateCurrentNoteFromDOM st).currentNote,
          draftWriteTimes := st.draftWriteTimes ++ [now] } := by
    simp [saveDraft, hcur, updateCurrentNoteFromDOM]
  refine ⟨?_, ?_, ?_⟩
  · rw [h1]; simp [updateCurrentNoteFromDOM, hcur, htimer]
  · rw [h1]
  · rw [h1]
    simp [settle, updateCurrentNoteFromDOM, hcur, htimer, saveDraft]

/-! ## Claim C10 -/

/-- Claim C10: loading a note id that is not in the history list is a
complete no-op: the whole application state, including the current note,
history, persisted slots and all screen regions, is unchanged. -/
theorem loadNote_missing_id_noop (now : Nat) (noteId : Str) (st : AppState)
    (habsent : ∀ n ∈ st.notesHistory, n.id ≠ noteId) :
    loadNote now noteId st = st := by
  have hfind : st.notesHistory.find? (fun n => n.id == noteId) = none := by
    rw [List.find?_eq_none]
    intro x hx
    simpa using habsent x hx
  simp [loadNote, hfind]

/-! ## Concrete fixtures used by witnesses and counterexamples -/

/-- A note with all textual fields blank. -/
def wsNoteBlank : Note :=
  { id := strOf "i", title := [], rawTranscription := [], polishedNote := [],
    elaboratedNote := [], timestamp := 0 }

/-- A note with a non-blank raw transcript. -/
def wsNoteRaw : Note :=
  { id := strOf "i", title := [], rawTranscription := strOf "r", polishedNote := [],
    elaboratedNote := [], timestamp := 0 }

/-- A stored history entry with id "x" and polished content "o". -/
def wsNoteOld : Note :=
  { id := strOf "x", title := [], rawTranscription := [], polishedNote := strOf "o",
    elaboratedNote := [], timestamp := 0 }

/-- A note with id "x" and polished content "n". -/
def wsNoteNew : Note :=
  { id := strOf "x", title := [], rawTranscription := [], polishedNote := strOf "n",
    elaboratedNote := [], timestamp := 0 }

/-- A history entry with a distinct id "b". -/
def wsNoteB : Note :=
  { id := strOf "b", title := [], rawTranscription := strOf "r", polishedNote := [],
    elaboratedNote := [], timestamp := 0 }

/-- A baseline application state: fresh editor showing placeholders, one
current note with a raw transcript, empty history and storage. -/
def wsBase : AppState :=
  { currentNote := some wsNoteRaw
    notesHistory := [], editorTitleText := [], editorTitlePlaceholderActive := true
    titlePlaceholder := strOf "U"
    polished := { innerHTML := [], placeholderActive := true, placeholder := [] }
    elaborated := { innerHTML := [], placeholderActive := true, placeholder := [] }
    recordingStatus := [], isRecording := false, audioChunks := []
    storedHistory := none, storedDraft := none, autoSaveTimeoutId := none
    draftWriteTimes := [], transcriptionCalls := 0, commitCalls := 0 }

/-- Baseline state whose current note is effectively empty. -/
def wsEmpty : AppState := { wsBase with currentNote := some wsNoteBlank }

/-- Baseline state with one history entry (id "x"). -/
def wsHist : AppState := { wsBase with notesHistory := [wsNoteOld] }

/-- Witness for C1 at a concrete blank note. -/
theorem commit_skips_blank_and_inserts_nonblank_witness :
    (saveCurrentNoteToHistory 9 wsEmpty).notesHistory = wsEmpty.notesHistory ∧
    (saveCurrentNoteToHistory 9 wsEmpty).storedHistory = wsEmpty.storedHistory :=
  (commit_skips_blank_and_inserts_nonblank wsEmpty 9).1 wsNoteBlank rfl (by decide)

/-- Witness for C3: replacing the entry with id "x" moves it to the front and
keeps the entry with id "b". -/
theorem commitList_replace_or_insert_front_witness :
    commitList wsNoteNew [wsNoteB, wsNoteOld] = [wsNoteNew, wsNoteB] ∧
    (commitList wsNoteNew [wsNoteB, wsNoteOld]).countP
      (fun e => e.id == wsNoteNew.id) = 1 := by
  have h := commitList_replace_or_insert_front.1 wsNoteNew wsNoteOld [wsNoteB] []
    (by decide) (by decide) (by decide) (by decide)
  simpa using h

/-- Witness for C5 at a concrete state with no captured chunks. -/
theorem onStop_no_chunks_no_transcription_witness :
    (onStop id (Except.ok ()) (Except.ok []) (Except.ok []) (Except.ok []) 5
      wsBase).recordingStatus = statusNoAudio ∧
    (onStop id (Except.ok ()) (Except.ok []) (Except.ok []) (Except.ok []) 5
      wsBase).transcriptionCalls = wsBase.transcriptionCalls ∧
    (onStop id (Except.ok ()) (Except.ok []) (Except.ok []) (Except.ok []) 5
      wsBase).commitCalls = wsBase.commitCalls ∧
    (onStop id (Except.ok ()) (Except.ok []) (Except.ok []) (Except.ok []) 5
      wsBase).notesHistory = wsBase.notesHistory ∧
    (onStop id (Except.ok ()) (Except.ok []) (Except.ok []) (Except.ok []) 5
      wsBase).storedHistory = wsBase.storedHistory :=
  onStop_no_chunks_no_transcription id (Except.ok ()) (Except.ok []) (Except.ok [])
    (Except.ok []) 5 wsBase rfl

/-- Witness for C9 at a concrete state with a pending timer at 700. -/
theorem saveDraft_immediate_keeps_pending_timer_witness :
    (saveDraft 100 true { wsBase with autoSaveTimeoutId := some 700 }).autoSaveTimeoutId =
      some 700 ∧
    (saveDraft 100 true { wsBase with autoSaveTimeoutId := some 700 }).draftWriteTimes =
      { wsBase with autoSaveTimeoutId := some 700 }.draftWriteTimes ++ [100] ∧
    (settle (saveDraft 100 true
      { wsBase with autoSaveTimeoutId := some 700 })).draftWriteTimes =
      { wsBase with autoSaveTimeoutId := some 700 }.draftWriteTimes ++ [100, 700] :=
  saveDraft_immediate_keeps_pending_timer { wsBase with autoSaveTimeoutId := some 700 }
    100 700 wsNoteRaw rfl rfl

/-- Witness for C10: loading the absent id "z" is a no-op. -/
theorem loadNote_missing_id_noop_witness :
    loadNote 0 (strOf "z") wsHist = wsHist :=
  loadNote_missing_id_noop 0 (strOf "z") wsHist (by decide)

/-! ## Field-preservation lemmas for the individual operations -/

theorem saveDraft_pres (now : Nat) (imm : Bool) (st : AppState) :
    (saveDraft now imm st).notesHistory = st.notesHistory ∧
    (saveDraft now imm st).storedHistory = st.storedHistory ∧
    (saveDraft now imm st).editorTitleText = st.editorTitleText ∧
    (saveDraft now imm st).editorTitlePlaceholderActive = st.editorTitlePlaceholderActive ∧
    (saveDraft now imm st).titlePlaceholder = st.titlePlaceholder ∧
    (saveDraft now imm st).polished = st.polished ∧
    (saveDraft now imm st).elaborated = st.elaborated ∧
    (saveDraft now imm st).commitCalls = st.commitCalls ∧
    (saveDraft now imm st).transcriptionCalls = st.transcriptionCalls := by
  unfold saveDraft
  cases imm <;> cases ht : st.autoSaveTimeoutId <;> cases hc : st.currentNote <;>
    simp [ht, hc, updateCurrentNoteFromDOM]

theorem commit_pres (now : Nat) (st : AppState) :
    (saveCurrentNoteToHistory now st).editorTitleText = st.editorTitleText ∧
    (saveCurrentNoteToHistory now st).editorTitlePlaceholderActive =
      st.editorTitlePlaceholderActive ∧
    (saveCurrentNoteToHistory now st).titlePlaceholder = st.titlePlaceholder ∧
    (saveCurrentNoteToHistory now st).polished = st.polished ∧
    (saveCurrentNoteToHistory now st).elaborated = st.elaborated ∧
    (saveCurrentNoteToHistory now st).transcriptionCalls = st.transcriptionCalls ∧
    (saveCurrentNoteToHistory now st).commitCalls = st.commitCalls + 1 ∧
    (saveCurrentNoteToHistory now st).autoSaveTimeoutId = st.autoSaveTimeoutId ∧
    (saveCurrentNoteToHistory now st).draftWriteTimes = st.draftWriteTimes ∧
    (saveCurrentNoteToHistory now st).storedDraft = st.storedDraft := by
  unfold saveCurrentNoteToHistory
  cases hc : st.currentNote with
  | none => simp
  | some n =>
    by_cases he : effectivelyEmpty (refreshNoteFromDOM st n) = true <;> simp [hc, he]

/-- The history after a commit: unchanged, or the `commitList` insertion of
the DOM-refreshed current note. -/
theorem commit_history_cases (now : Nat) (st : AppState) :
    ((saveCurrentNoteToHistory now st).notesHistory = st.notesHistory ∧
     (saveCurrentNoteToHistory now st).storedHistory = st.storedHistory) ∨
    (∃ n, st.currentNote = some n ∧
      (saveCurrentNoteToHistory now st).notesHistory =
        commitList { refreshNoteFromDOM st n with timestamp := now } st.notesHistory ∧
      (saveCurrentNoteToHistory now st).storedHistory =
        some (commitList { refreshNoteFromDOM st n with timestamp := now }
          st.notesHistory)) := by
  unfold saveCurrentNoteToHistory
  cases hc : st.currentNote with
  | none => left; simp
  | some n =>
    by_cases he : effectivelyEmpty (refreshNoteFromDOM st n) = true
    · left; simp [hc, he]
    · right; exact ⟨n, rfl, by simp [hc, he], by simp [hc, he]⟩

theorem getPolishedNote_pres (marked : Str → Str) (p : Except Str Str) (now : Nat)
    (st : AppState) :
    (getPolishedNote marked p now st).notesHistory = st.notesHistory ∧
    (getPolishedNote marked p now st).storedHistory = st.storedHistory ∧
    (getPolishedNote marked p now st).elaborated = st.elaborated ∧
    (getPolishedNote marked p now st).commitCalls = st.commitCalls ∧
    (getPolishedNote marked p now st).transcriptionCalls = st.transcriptionCalls ∧
    (getPolishedNote marked p now st).currentNote.map (fun c => c.rawTranscription) =
      st.currentNote.map (fun c => c.rawTranscription) ∧
    (getPolishedNote marked p now st).storedDraft = st.storedDraft ∧
    (getPolishedNote marked p now st).draftWriteTimes = st.draftWriteTimes := by
  unfold getPolishedNote
  cases hc : st.currentNote with
  | none => simp [setPolishedPlaceholder, hc]
  | some cur =>
    by_cases hraw : (trimStr cur.rawTranscription).isEmpty
    · simp [hraw, setPolishedPlaceholder, hc]
    · cases p with
      | error e => simp [hraw]
      | ok t =>
        by_cases ht : t.isEmpty
        · simp [hraw, ht]
        · by_cases htr : (trimStr t).isEmpty <;>
            simp [hraw, ht, htr, hc, scheduleAutoSave]

theorem getElaboratedNote_pres (marked : Str → Str) (p : Except Str Str) (now : Nat)
    (st : AppState) :
    (getElaboratedNote marked p now st).notesHistory = st.notesHistory ∧
    (getElaboratedNote marked p now st).storedHistory = st.storedHistory ∧
    (getElaboratedNote marked p now st).polished = st.polished ∧
    (getElaboratedNote marked p now st).commitCalls = st.commitCalls ∧
    (getElaboratedNote marked p now st).transcriptionCalls = st.transcriptionCalls ∧
    (getElaboratedNote marked p now st).currentNote.map (fun c => c.rawTranscription) =
      st.currentNote.map (fun c => c.rawTranscription) ∧
    (getElaboratedNote marked p now st).editorTitleText = st.editorTitleText ∧
    (getElaboratedNote marked p now st).editorTitlePlaceholderActive =
      st.editorTitlePlaceholderActive ∧
    (getElaboratedNote marked p now st).storedDraft = st.storedDraft ∧
    (getElaboratedNote marked p now st).draftWriteTimes = st.draftWriteTimes := by
  unfold getElaboratedNote
  cases hc : st.currentNote with
  | none => simp [setElaboratedPlaceholder, hc]
  | some cur =>
    by_cases hraw : (trimStr cur.rawTranscription).isEmpty
    · simp [hraw, setElaboratedPlaceholder, hc]
    · cases p with
      | error e => simp [hraw]
      | ok t =>
        by_cases ht : t.isEmpty
        · simp [hraw, ht]
        · by_cases htr : (trimStr t).isEmpty <;>
            simp [hraw, ht, htr, hc, scheduleAutoSave]

/-! ## Claim C2: the bounded-history invariant over reachable states -/

/-- The bounded-history invariant: the in-memory history and any persisted
history hold at most `MAX_HISTORY_ITEMS` notes. -/
def HistoryInv (st : AppState) : Prop :=
  st.notesHistory.length ≤ MAX_HISTORY_ITEMS ∧
    ∀ l, st.storedHistory = some l → l.length ≤ MAX_HISTORY_ITEMS

theorem commitList_length_le (n : Note) (h : List Note) :
    (commitList n h).length ≤ MAX_HISTORY_ITEMS := by
  simp [commitList]

theorem inv_of_fields {a b : AppState} (h1 : b.notesHistory = a.notesHistory)
    (h2 : b.storedHistory = a.storedHistory) (h : HistoryInv a) : HistoryInv b := by
  unfold HistoryInv at *
  rw [h1, h2]
  exact h

theorem commit_inv (now : Nat) (st : AppState) (h : HistoryInv st) :
    HistoryInv (saveCurrentNoteToHistory now st) := by
  rcases commit_history_cases now st with ⟨h1, h2⟩ | ⟨n, hc, h1, h2⟩
  · exact inv_of_fields h1 h2 h
  · constructor
    · rw [h1]; exact commitList_length_le _ _
    · intro l hl
      rw [h2] at hl
      have := Option.some.inj hl
      rw [← this]
      exact commitList_length_le _ _

theorem scheduleAutoSave_inv (now : Nat) (st : AppState) (h : HistoryInv st) :
    HistoryInv (scheduleAutoSave now st) :=
  inv_of_fields rfl rfl h

theorem saveDraft_inv (now : Nat) (imm : Bool) (st : AppState) (h : HistoryInv st) :
    HistoryInv (saveDraft now imm st) :=
  inv_of_fields (saveDraft_pres now imm st).1 (saveDraft_pres now imm st).2.1 h

theorem advanceTo_inv (t : Nat) (st : AppState) (h : HistoryInv st) :
    HistoryInv (advanceTo t st) := by
  unfold advanceTo
  cases ht : st.autoSaveTimeoutId with
  | none => exact h
  | some τ =>
    by_cases hle : τ ≤ t
    · simp only [hle, if_true]
      exact saveDraft_inv τ false st h
    · simp only [hle, if_false]
      exact h

theorem loadHistoryOp_inv (st : AppState) (h : HistoryInv st) :
    HistoryInv (loadHistoryOp st) := by
  unfold loadHistoryOp
  cases hs : st.storedHistory with
  | none => exact h
  | some l =>
    constructor
    · simpa using h.2 l hs
    · intro l' hl'
      simp only at hl'
      rw [← Option.some.inj hl']
      exact h.2 l hs

theorem loadDraftOp_fields (st : AppState) :
    (loadDraftOp st).notesHistory = st.notesHistory ∧
    (loadDraftOp st).storedHistory = st.storedHistory := by
  unfold loadDraftOp
  cases hd : st.storedDraft with
  | none => exact ⟨rfl, rfl⟩
  | some d =>
    constructor <;> (repeat' split) <;>
      (first
        | rfl
        | simp [setPolishedPlaceholder, setElaboratedPlaceholder])

theorem createNewNote_fields (now : Nat) (b : Bool) (st : AppState) :
    (createNewNote now b st).notesHistory =
      (if b then saveCurrentNoteToHistory now st else st).notesHistory ∧
    (createNewNote now b st).storedHistory =
      (if b then saveCurrentNoteToHistory now st else st).storedHistory := by
  unfold createNewNote
  cases b <;> constructor <;> simp only [saveDraft_pres] <;> (repeat' split) <;>
    simp_all [setPolishedPlaceholder, setElaboratedPlaceholder]

theorem createNewNote_inv (now : Nat) (b : Bool) (st : AppState) (h : HistoryInv st) :
    HistoryInv (createNewNote now b st) := by
  have hf := createNewNote_fields now b st
  cases b
  · simp at hf
    exact inv_of_fields hf.1 hf.2 h
  · simp at hf
    exact inv_of_fields hf.1 hf.2 (commit_inv now st h)

theorem loadNote_fields (now : Nat) (noteId : Str) (st : AppState) :
    ((loadNote now noteId st).notesHistory = st.notesHistory ∧
     (loadNote now noteId st).storedHistory = st.storedHistory) ∨
    ((loadNote now noteId st).notesHistory = (saveCurrentNoteToHistory now st).notesHistory ∧
     (loadNote now noteId st).storedHistory =
       (saveCurrentNoteToHistory now st).storedHistory) := by
  unfold loadNote
  cases hf : st.notesHistory.find? (fun n => n.id == noteId) with
  | none => left; exact ⟨rfl, rfl⟩
  | some N =>
    right
    constructor <;> simp only [saveDraft_pres] <;> (repeat' split) <;>
      simp_all [setPolishedPlaceholder, setElaboratedPlaceholder]

theorem loadNote_inv (now : Nat) (noteId : Str) (st : AppState) (h : HistoryInv st) :
    HistoryInv (loadNote now noteId st) := by
  rcases loadNote_fields now noteId st with ⟨h1, h2⟩ | ⟨h1, h2⟩
  · exact inv_of_fields h1 h2 h
  · exact inv_of_fields h1 h2 (commit_inv now st h)

/-- The transcription pipeline always ends in exactly the history commit of
an intermediate state whose history fields are those of the input. -/
theorem getTranscription_eq_commit (marked : Str → Str) (trOut polOut elaOut : Except Str Str)
    (now : Nat) (st : AppState) :
    ∃ mid : AppState, getTranscription marked trOut polOut elaOut now st =
        saveCurrentNoteToHistory now mid ∧
      mid.notesHistory = st.notesHistory ∧ mid.storedHistory = st.storedHistory := by
  unfold getTranscription
  cases trOut with
  | error e => exact ⟨_, rfl, by simp, by simp⟩
  | ok t =>
    cases hc : st.currentNote with
    | none => exact ⟨_, rfl, by simp [hc], by simp [hc]⟩
    | some cur =>
      cases t with
      | nil => exact ⟨_, rfl, by simp [hc], by simp [hc]⟩
      | cons c cs =>
        refine ⟨_, rfl, ?_, ?_⟩ <;>
          simp [hc, getPolishedNote_pres, getElaboratedNote_pres]

theorem getTranscription_inv (marked : Str → Str) (trOut polOut elaOut : Except Str Str)
    (now : Nat) (st : AppState) (h : HistoryInv st) :
    HistoryInv (getTranscription marked trOut polOut elaOut now st) := by
  obtain ⟨mid, heq, h1, h2⟩ := getTranscription_eq_commit marked trOut polOut elaOut now st
  rw [heq]
  exact commit_inv now mid (inv_of_fields h1 h2 h)

theorem processAudio_inv (marked : Str → Str) (conv : Except Str Unit)
    (trOut polOut elaOut : Except Str Str) (now blobSize : Nat) (st : AppState)
    (h : HistoryInv st) :
    HistoryInv (processAudio marked conv trOut polOut elaOut now blobSize st) := by
  unfold processAudio
  by_cases hz : blobSize = 0
  · simp only [hz, if_true]
    exact inv_of_fields rfl rfl h
  · simp only [hz, if_false]
    cases conv with
    | error e => exact inv_of_fields rfl rfl h
    | ok u =>
      exact getTranscription_inv marked trOut polOut elaOut now _
        (inv_of_fields rfl rfl h)

theorem onStop_inv (marked : Str → Str) (conv : Except Str Unit)
    (trOut polOut elaOut : Except Str Str) (now : Nat) (st : AppState)
    (h : HistoryInv st) :
    HistoryInv (onStop marked conv trOut polOut elaOut now st) := by
  unfold onStop
  by_cases hz : st.audioChunks.isEmpty
  · simp only [hz, if_true]
    exact inv_of_fields rfl rfl h
  · simp only [hz, if_false]
    exact processAudio_inv marked conv trOut polOut elaOut now _ st h

/-- One user-visible or event-loop step of the application: any of the
operations `index.tsx` can perform on the modelled state, with remote-call
outcomes as oracles, plus arbitrary direct edits of the DOM fields. -/
inductive Step : AppState → AppState → Prop where
  | commit (st : AppState) (now : Nat) : Step st (saveCurrentNoteToHistory now st)
  | newNote (st : AppState) (now : Nat) (saveCurrent : Bool) :
      Step st (createNewNote now saveCurrent st)
  | load (st : AppState) (now : Nat) (noteId : Str) : Step st (loadNote now noteId st)
  | draft (st : AppState) (now : Nat) (immediate : Bool) :
      Step st (saveDraft now immediate st)
  | schedule (st : AppState) (now : Nat) : Step st (scheduleAutoSave now st)
  | timerFire (st : AppState) (t : Nat) : Step st (advanceTo t st)
  | histLoad (st : AppState) : Step st (loadHistoryOp st)
  | draftLoad (st : AppState) : Step st (loadDraftOp st)
  | stop (st : AppState) (marked : Str → Str) (conv : Except Str Unit)
      (trOut polOut elaOut : Except Str Str) (now : Nat) :
      Step st (onStop marked conv trOut polOut elaOut now st)
  | edit (st : AppState) (tText : Str) (tFlag : Bool) (pol ela : Region)
      (status : Str) (rec : Bool) (chunks : List Nat) :
      Step st { st with editorTitleText := tText, editorTitlePlaceholderActive := tFlag,
                        polished := pol, elaborated := ela, recordingStatus := status,
                        isRecording := rec, audioChunks := chunks }

/-- The state after the `VoiceNotesApp` constructor runs against empty
storage: `loadHistory` (no stored history), `loadDraft` fails, so
`createNewNote(false)`, then the ready status; parametrised by the three
`placeholder` attributes of the page. -/
def initialState (tph pph eph : Str) : AppState :=
  let base : AppState :=
    { currentNote := none, notesHistory := [], editorTitleText := [],
      editorTitlePlaceholderActive := false, titlePlaceholder := tph,
      polished := { innerHTML := [], placeholderActive := false, placeholder := pph },
      elaborated := { innerHTML := [], placeholderActive := false, placeholder := eph },
      recordingStatus := [], isRecording := false, audioChunks := [],
      storedHistory := none, storedDraft := none, autoSaveTimeoutId := none,
      draftWriteTimes := [], transcriptionCalls := 0, commitCalls := 0 }
  { createNewNote 0 false (loadHistoryOp base) with recordingStatus := statusReady }

/-- A state the application can reach from a fresh start. -/
def Reachable (st : AppState) : Prop :=
  ∃ tph pph eph, Relation.ReflTransGen Step (initialState tph pph eph) st

theorem step_preserves_inv {a b : AppState} (s : Step a b) (h : HistoryInv a) :
    HistoryInv b := by
  cases s with
  | commit now => exact commit_inv now a h
  | newNote now saveCurrent => exact createNewNote_inv now saveCurrent a h
  | load now noteId => exact loadNote_inv now noteId a h
  | draft now immediate => exact saveDraft_inv now immediate a h
  | schedule now => exact scheduleAutoSave_inv now a h
  | timerFire t => exact advanceTo_inv t a h
  | histLoad => exact loadHistoryOp_inv a h
  | draftLoad =>
    exact inv_of_fields (loadDraftOp_fields a).1 (loadDraftOp_fields a).2 h
  | stop marked conv trOut polOut elaOut now =>
    exact onStop_inv marked conv trOut polOut elaOut now a h
  | edit tText tFlag pol ela status rec chunks => exact inv_of_fields rfl rfl h

theorem initialState_inv (tph pph eph : Str) : HistoryInv (initialState tph pph eph) := by
  constructor
  · show ((initialState tph pph eph).notesHistory).length ≤ MAX_HISTORY_ITEMS
    have : (initialState tph pph eph).notesHistory = [] := rfl
    rw [this]
    decide
  · intro l hl
    have : (initialState tph pph eph).storedHistory = none := rfl
    rw [this] at hl
    cases hl

/-- Claim C2: in every reachable state of the application, the in-memory
history (and the persisted one) holds at most `MAX_HISTORY_ITEMS` notes —
each commit truncates after insertion and no operation grows the list past
the cap. -/
theorem reachable_history_bounded (st : AppState) (h : Reachable st) :
    st.notesHistory.length ≤ MAX_HISTORY_ITEMS ∧
    ∀ l, st.storedHistory = some l → l.length ≤ MAX_HISTORY_ITEMS := by
  obtain ⟨tph, pph, eph, hr⟩ := h
  have : HistoryInv st := by
    induction hr with
    | refl => exact initialState_inv tph pph eph
    | tail _ hstep ih => exact step_preserves_inv hstep ih
  exact this

/-- Witness for C2 at the concrete initial state. -/
theorem reachable_history_bounded_witness :
    (initialState [] [] []).notesHistory.length ≤ MAX_HISTORY_ITEMS ∧
    ∀ l, (initialState [] [] []).storedHistory = some l →
      l.length ≤ MAX_HISTORY_ITEMS :=
  reachable_history_bounded (initialState [] [] [])
    ⟨[], [], [], Relation.ReflTransGen.refl⟩

/-! ## Claim C7 -/

/-- State in which the currently open note (id "x") has been edited on
screen (polished shows "n") while History still holds the stale entry with
id "x" (polished "o"). -/
def wsStale : AppState :=
  { wsBase with currentNote := some wsNoteNew, notesHistory := [wsNoteOld],
                polished := { innerHTML := strOf "n", placeholderActive := false,
                              placeholder := [] } }

/-- Counterexample to claim C7 as stated: loading the History entry with
id "x" twice in succession does not leave the screen unchanged — the first
load shows the stored entry ("o"), but its commit replaced that entry with
the refreshed open note, so the second load shows "n". -/
theorem loadNote_twice_screen_counterexample :
    screenOf (loadNote 2 (strOf "x") (loadNote 1 (strOf "x") wsStale)) ≠
      screenOf (loadNote 1 (strOf "x") wsStale) := by decide

/-- A successful `loadNote` populates the screen from the found entry and
keeps the placeholders; its history is the committed one. -/
theorem loadNote_screen_some (now : Nat) (noteId : Str) (st : AppState) (N : Note)
    (hf : st.notesHistory.find? (fun n => n.id == noteId) = some N) :
    screenOf (loadNote now noteId st) =
      populateScreen N st.titlePlaceholder st.polished.placeholder
        st.elaborated.placeholder ∧
    (loadNote now noteId st).titlePlaceholder = st.titlePlaceholder ∧
    (loadNote now noteId st).polished.placeholder = st.polished.placeholder ∧
    (loadNote now noteId st).elaborated.placeholder = st.elaborated.placeholder ∧
    (loadNote now noteId st).notesHistory = (saveCurrentNoteToHistory now st).notesHistory := by
  simp only [loadNote, hf]
  refine ⟨?_, ?_, ?_, ?_, ?_⟩ <;>
    simp only [screenOf, populateScreen, saveDraft_pres] <;>
      (repeat' split) <;>
        simp_all [setPolishedPlaceholder, setElaboratedPlaceholder, commit_pres]

/-- Claim C7 (amended): loading a History entry twice in succession leaves
the on-screen state identical, provided the note open before the first load
does not itself carry the loaded id (when it does, the first load's commit
replaces the stored entry with the refreshed open note, and the second load
shows that refreshed content instead — see the counterexample). -/
theorem loadNote_idempotent_screen_of_other_id (now₁ now₂ : Nat) (noteId : Str)
    (st : AppState) (hid : ∀ c, st.currentNote = some c → c.id ≠ noteId) :
    screenOf (loadNote now₂ noteId (loadNote now₁ noteId st)) =
      screenOf (loadNote now₁ noteId st) := by
  cases hf : st.notesHistory.find? (fun n => n.id == noteId) with
  | none =>
    have h1 : loadNote now₁ noteId st = st := by simp [loadNote, hf]
    rw [h1]
    have h2 : loadNote now₂ noteId st = st := by simp [loadNote, hf]
    rw [h2]
  | some N =>
    obtain ⟨hscreen1, htph, hpph, heph, hhist⟩ := loadNote_screen_some now₁ noteId st N hf
    cases hf2 : (loadNote now₁ noteId st).notesHistory.find?
        (fun n => n.id == noteId) with
    | none =>
      generalize hgen : loadNote now₁ noteId st = s1 at hf2
      have h2 : loadNote now₂ noteId s1 = s1 := by simp [loadNote, hf2]
      rw [h2]
    | some M =>
      have hM : M = N := by
        have hf2' := hf2
        rw [hhist] at hf2'
        rcases commit_history_cases now₁ st with ⟨hch, _⟩ | ⟨c, hc, hch, _⟩
        · rw [hch, hf] at hf2'
          exact (Option.some.inj hf2').symm
        · rw [hch] at hf2'
          have hcid : c.id ≠ noteId := hid c hc
          have h1 : ((({ refreshNoteFromDOM st c with timestamp := now₁ } ::
              st.notesHistory.eraseP (fun e => e.id ==
                ({ refreshNoteFromDOM st c with timestamp := now₁ } : Note).id)).take
                  MAX_HISTORY_ITEMS).find? (fun n => n.id == noteId)) = some M := by
            simpa [commitList] using hf2'
          have h2 := find?_take_eq_some _ _ _ h1
          have hqhead : ((({ refreshNoteFromDOM st c with timestamp := now₁ } : Note).id ==
              noteId) = false) := by
            have hidrefresh : ({ refreshNoteFromDOM st c with timestamp := now₁ } : Note).id =
                c.id := rfl
            rw [hidrefresh]
            simpa using hcid
          have h3 : (st.notesHistory.eraseP (fun e => e.id ==
              ({ refreshNoteFromDOM st c with timestamp := now₁ } : Note).id)).find?
                (fun n => n.id == noteId) = some M := by
            simpa [hqhead] using h2
          have hdisj : ∀ x : Note, (x.id ==
              ({ refreshNoteFromDOM st c with timestamp := now₁ } : Note).id) = true →
              (x.id == noteId) = false := by
            intro x hx
            have hx' : x.id = c.id := by simpa using hx
            rw [hx']
            simpa using hcid
          have h4 := (find?_eraseP_of_disjoint hdisj st.notesHistory).symm.trans h3
          rw [hf] at h4
          exact (Option.some.inj h4).symm
      subst hM
      obtain ⟨hscreen2, _, _, _, _⟩ :=
        loadNote_screen_some now₂ noteId (loadNote now₁ noteId st) M hf2
      rw [hscreen2, htph, hpph, heph, hscreen1]

/-- Witness for the amended C7: the open note has id "i", the loaded entry
id "x". -/
theorem loadNote_idempotent_screen_of_other_id_witness :
    screenOf (loadNote 2 (strOf "x") (loadNote 1 (strOf "x") wsHist)) =
      screenOf (loadNote 1 (strOf "x") wsHist) := by
  refine loadNote_idempotent_screen_of_other_id 1 2 (strOf "x") wsHist ?_
  intro c hc
  have hc' : some wsNoteRaw = some c := hc
  rw [← Option.some.inj hc']
  decide

/-! ## Claim C8 -/

/-- Closed form of an edit burst: when each edit arrives before the pending
debounce timer is due, the whole trace only moves the timer — every edit
cancels the previous timer and restarts it at its own time plus the delay. -/
theorem runEditTrace_closed_form :
    ∀ (ts : List Nat) (t : Nat) (st : AppState),
      (st.autoSaveTimeoutId = none ∨ ∃ τ, st.autoSaveTimeoutId = some τ ∧ t < τ) →
      List.Chain' (fun a b => a ≤ b ∧ b < a + AUTO_SAVE_DELAY) (t :: ts) →
      runEditTrace (t :: ts) st =
        { st with autoSaveTimeoutId := some (ts.getLastD t + AUTO_SAVE_DELAY) } := by
  intro ts
  induction ts with
  | nil =>
    intro t st hpre _
    rcases hpre with h | ⟨τ, hτ, hlt⟩
    · simp [runEditTrace, advanceTo, scheduleAutoSave, h]
    · have hnle : ¬ τ ≤ t := by omega
      simp [runEditTrace, advanceTo, scheduleAutoSave, hτ, hnle]
  | cons t' ts ih =>
    intro t st hpre hch
    have hstep : scheduleAutoSave t (advanceTo t st) =
        { st with autoSaveTimeoutId := some (t + AUTO_SAVE_DELAY) } := by
      rcases hpre with h | ⟨τ, hτ, hlt⟩
      · simp [advanceTo, scheduleAutoSave, h]
      · have hnle : ¬ τ ≤ t := by omega
        simp [advanceTo, scheduleAutoSave, hτ, hnle]
    obtain ⟨⟨hle, hgap⟩, hch'⟩ := List.chain'_cons.mp hch
    have hrec := ih t' { st with autoSaveTimeoutId := some (t + AUTO_SAVE_DELAY) }
      (Or.inr ⟨t + AUTO_SAVE_DELAY, rfl, hgap⟩) hch'
    show runEditTrace (t' :: ts) (scheduleAutoSave t (advanceTo t st)) = _
    rw [hstep, hrec]
    simp only [List.getLastD_cons]

/-- Claim C8: the debounced draft save is trailing-edge only: a burst of
edits each closer than `AUTO_SAVE_DELAY` to its predecessor performs no save
during the burst, leaves exactly one timer pending at (last edit + delay),
and when that timer fires exactly one draft save happens, timed from the
last edit. -/
theorem debounce_trailing_edge_single_save (st : AppState) (t : Nat) (ts : List Nat)
    (htimer : st.autoSaveTimeoutId = none) (hcur : st.currentNote.isSome)
    (hch : List.Chain' (fun a b => a ≤ b ∧ b < a + AUTO_SAVE_DELAY) (t :: ts)) :
    runEditTrace (t :: ts) st =
      { st with autoSaveTimeoutId := some (ts.getLastD t + AUTO_SAVE_DELAY) } ∧
    (settle (runEditTrace (t :: ts) st)).draftWriteTimes =
      st.draftWriteTimes ++ [ts.getLastD t + AUTO_SAVE_DELAY] := by
  have hrun := runEditTrace_closed_form ts t st (Or.inl htimer) hch
  refine ⟨hrun, ?_⟩
  rw [hrun]
  obtain ⟨c, hc⟩ := Option.isSome_iff_exists.mp hcur
  simp [settle, saveDraft, updateCurrentNoteFromDOM, hc]

/-- Witness for C8: edits at 0 and 1000 (closer than the 1500 ms delay)
produce exactly one save at 2500. -/
theorem debounce_trailing_edge_single_save_witness :
    runEditTrace [0, 1000] wsBase =
      { wsBase with autoSaveTimeoutId := some 2500 } ∧
    (settle (runEditTrace [0, 1000] wsBase)).draftWriteTimes =
      wsBase.draftWriteTimes ++ [2500] :=
  debounce_trailing_edge_single_save wsBase 0 [1000] rfl (by decide)
    (by simp [List.chain'_cons, AUTO_SAVE_DELAY])

/-! ## Trim lemmas -/

theorem dropWhile_head_false {p : Char → Bool} :
    ∀ (l : List Char) (c : Char) (cs : List Char), l.dropWhile p = c :: cs → p c = false := by
  intro l
  induction l with
  | nil => intro c cs h; simp at h
  | cons a t ih =>
    intro c cs h
    cases hpa : p a
    · simp [hpa] at h
      rw [← h.1]
      exact hpa
    · simp [hpa] at h
      exact ih c cs h

theorem trimStr_eq_nil_iff (l : Str) : trimStr l = [] ↔ ∀ c ∈ l, isWsChar c = true := by
  unfold trimStr
  rw [List.reverse_eq_nil_iff, List.dropWhile_eq_nil_iff]
  constructor
  · intro h c hc
    have hsplit : c ∈ l.takeWhile isWsChar ++ l.dropWhile isWsChar := by
      rw [List.takeWhile_append_dropWhile isWsChar l]
      exact hc
    rcases List.mem_append.mp hsplit with h1 | h1
    · exact List.mem_takeWhile_imp h1
    · exact h c (List.mem_reverse.mpr h1)
  · intro h c hc
    exact h c ((List.dropWhile_sublist isWsChar).subset (List.mem_reverse.mp hc))

theorem trimStr_getLast_not_ws (m : Str) (y : Char)
    (h : (trimStr m).getLast? = some y) : isWsChar y = false := by
  unfold trimStr at h
  rw [List.getLast?_reverse] at h
  cases hd : (m.dropWhile isWsChar).reverse.dropWhile isWsChar with
  | nil => rw [hd] at h; simp at h
  | cons c cs =>
    rw [hd] at h
    have hcy : c = y := Option.some.inj h
    rw [← hcy]
    exact dropWhile_head_false _ _ _ hd

theorem trimStr_head_not_ws (m : Str) (x : Char) (xs : List Char)
    (h : trimStr m = x :: xs) : isWsChar x = false := by
  unfold trimStr at h
  have hsuf : ((m.dropWhile isWsChar).reverse.dropWhile isWsChar) <:+
      (m.dropWhile isWsChar).reverse := List.dropWhile_suffix isWsChar
  obtain ⟨t, ht⟩ := hsuf
  have hdw : m.dropWhile isWsChar =
      ((m.dropWhile isWsChar).reverse.dropWhile isWsChar).reverse ++ t.reverse := by
    have h2 := congrArg List.reverse ht
    rw [List.reverse_append, List.reverse_reverse] at h2
    exact h2.symm
  rw [h] at hdw
  rw [List.cons_append] at hdw
  exact dropWhile_head_false _ _ _ hdw

theorem trimStr_trimStr_ne_nil (l : Str) (h : trimStr l ≠ []) :
    trimStr (trimStr l) ≠ [] := by
  cases hT : trimStr l with
  | nil => exact absurd hT h
  | cons x xs =>
    intro habs
    rw [trimStr_eq_nil_iff] at habs
    have hx := habs x (List.mem_cons_self x xs)
    rw [trimStr_head_not_ws l x xs hT] at hx
    cases hx

theorem trimStr_append_right_ne (a t : Str) (h : trimStr t ≠ []) :
    trimStr (a ++ ' ' :: t) ≠ [] := by
  intro hc
  apply h
  rw [trimStr_eq_nil_iff] at hc ⊢
  intro c hcmem
  exact hc c (List.mem_append.mpr (Or.inr (List.mem_cons.mpr (Or.inr hcmem))))

/-! ## Title-inference lemmas -/

/-- On a trimmed line beginning with `'#'`, the code's heading strip always
yields a non-blank title (a trimmed line cannot end in the whitespace the
regex needs, except when followed by more text). -/
theorem heading_strip_trim_ne (m : Str) (hh : startsWithHash (trimStr m) = true) :
    trimStr (stripHashMarks (trimStr m)) ≠ [] := by
  obtain ⟨l', hcons⟩ : ∃ l', trimStr m = '#' :: l' := by
    cases hc : trimStr m with
    | nil => rw [hc] at hh; simp [startsWithHash] at hh
    | cons c cs =>
      rw [hc] at hh
      simp only [startsWithHash] at hh
      exact ⟨cs, by rw [show c = '#' from by simpa using hh] at hc ⊢⟩
  unfold stripHashMarks
  by_cases hmatch : ((trimStr m).dropWhile (fun c => c = '#')).length < (trimStr m).length ∧
      (((trimStr m).dropWhile (fun c => c = '#')).takeWhile isWsChar) ≠ []
  · rw [if_pos hmatch]
    cases hr : ((trimStr m).dropWhile (fun c => c = '#')).dropWhile isWsChar with
    | cons c cs =>
      intro habs
      rw [trimStr_eq_nil_iff] at habs
      have hcws := habs c (List.mem_cons_self c cs)
      rw [dropWhile_head_false _ _ _ hr] at hcws
      cases hcws
    | nil =>
      exfalso
      have hrest_ne : (trimStr m).dropWhile (fun c => c = '#') ≠ [] := by
        intro h0
        rw [h0] at hmatch
        simp at hmatch
      have hsplit : (trimStr m).takeWhile (fun c => c = '#') ++
          (trimStr m).dropWhile (fun c => c = '#') = trimStr m :=
        List.takeWhile_append_dropWhile _ _
      have hlast : (trimStr m).getLast? =
          ((trimStr m).dropWhile (fun c => c = '#')).getLast? := by
        conv_lhs => rw [← hsplit]
        exact List.getLast?_append_of_ne_nil _ hrest_ne
      cases hrl : ((trimStr m).dropWhile (fun c => c = '#')).getLast? with
      | none =>
        rw [List.getLast?_eq_none_iff] at hrl
        exact hrest_ne hrl
      | some y =>
        have hyws : isWsChar y = true := by
          have hall := List.dropWhile_eq_nil_iff.mp hr
          exact hall y (List.mem_of_getLast?_eq_some hrl)
        have hnws := trimStr_getLast_not_ws m y (by rw [hlast, hrl])
        rw [hnws] at hyws
        cases hyws
  · rw [if_neg hmatch]
    intro habs
    rw [trimStr_eq_nil_iff] at habs
    have := habs '#' (by rw [hcons]; exact List.mem_cons_self _ _)
    simp [isWsChar] at this

/-- The first title-inference loop, characterised: on trimmed lines it picks
the first line starting with `'#'` and strips it with the code's regex. -/
theorem findHeadingTitle_map_trim (ms : List Str) :
    findHeadingTitle (ms.map trimStr) =
      ((ms.map trimStr).find? startsWithHash).map
        (fun l => trimStr (stripHashMarks l)) := by
  induction ms with
  | nil => rfl
  | cons m ms ih =>
    simp only [List.map_cons]
    cases hh : startsWithHash (trimStr m)
    · simp [findHeadingTitle, hh, ih]
    · have hne := heading_strip_trim_ne m hh
      simp [findHeadingTitle, hh, hne]

/-- The second title-inference loop, characterised: the first line whose
decoration-stripped text is longer than 3 characters, truncated. -/
theorem findFallbackTitle_eq (ls : List Str) :
    findFallbackTitle ls =
      (ls.find? (fun l => decide (3 < (fallbackCandidate l).length))).map
        (fun l => truncate60 (fallbackCandidate l)) := by
  induction ls with
  | nil => rfl
  | cons l ls ih =>
    by_cases hl : l = []
    · subst hl
      have hcand : fallbackCandidate ([] : Str) = [] := rfl
      simp [findFallbackTitle, hcand, ih]
    · by_cases hlen : 3 < (fallbackCandidate l).length
      · simp [findFallbackTitle, hl, hlen]
      · simp [findFallbackTitle, hl, hlen, ih]

theorem inferTitle_heading_case (text curText : Str) (curFlag : Bool) (ph l : Str)
    (hfind : ((splitLinesJS text).map trimStr).find? startsWithHash = some l) :
    inferTitle text curText curFlag ph = (trimStr (stripHashMarks l), false) := by
  unfold inferTitle
  rw [findHeadingTitle_map_trim, hfind]
  rfl

theorem inferTitle_fallback_case (text curText : Str) (curFlag : Bool) (ph l : Str)
    (hnone : ((splitLinesJS text).map trimStr).find? startsWithHash = none)
    (hfind : ((splitLinesJS text).map trimStr).find?
      (fun l => decide (3 < (fallbackCandidate l).length)) = some l) :
    inferTitle text curText curFlag ph = (truncate60 (fallbackCandidate l), false) := by
  unfold inferTitle
  rw [findHeadingTitle_map_trim, hnone, findFallbackTitle_eq, hfind]
  rfl

theorem inferTitle_no_candidate_case (text curText : Str) (curFlag : Bool) (ph : Str)
    (hnone1 : ((splitLinesJS text).map trimStr).find? startsWithHash = none)
    (hnone2 : ((splitLinesJS text).map trimStr).find?
      (fun l => decide (3 < (fallbackCandidate l).length)) = none) :
    inferTitle text curText curFlag ph =
      (if trimStr curText = [] ∨ trimStr curText = ph then (ph, true)
       else (curText, curFlag)) := by
  unfold inferTitle
  rw [findHeadingTitle_map_trim, hnone1, findFallbackTitle_eq, hnone2]
  rfl

/-! ## Claim C6 -/

/-- The title claim C6 ascribes to a heading line, read literally: the line
with its leading run of `'#'` heading markers stripped (and trimmed). -/
def claimedHeadingTitle (l : Str) : Str :=
  trimStr (l.dropWhile (fun c => c = '#'))

/-- Counterexample to claim C6 as stated: the trimmed line "#Hola" starts
with `'#'`, so the claim makes the title "Hola" (markers stripped); the code
strips the markers only when followed by whitespace (`/^#+\s+/`), so the
title becomes "#Hola" verbatim. -/
theorem inferTitle_heading_markers_counterexample :
    inferTitle (strOf "#Hola") [] false (strOf "U") = (strOf "#Hola", false) ∧
    claimedHeadingTitle (strOf "#Hola") = strOf "Hola" ∧
    (strOf "#Hola" : Str) ≠ strOf "Hola" := by decide

/-- Claim C6 (amended): for non-empty polished text, if some trimmed line
starts with `'#'`, the title is the first such line with its `'#'` run and
following whitespace stripped when the run is followed by whitespace (a line
like "#Hola" is used verbatim); otherwise the title is the first line whose
text, after stripping leading and trailing markdown decoration, is longer
than 3 characters, truncated to 60 characters with "..." appended when
truncated; if no line qualifies, a blank or placeholder title is reset to the
placeholder and a user-typed title is left unchanged.  In particular,
"# My Title" yields "My Title", and with no heading line a line
"- some note here" yields "some note here". -/
theorem inferTitle_characterization (text curText : Str) (curFlag : Bool) (ph : Str) :
    (∀ l, ((splitLinesJS text).map trimStr).find? startsWithHash = some l →
      inferTitle text curText curFlag ph = (trimStr (stripHashMarks l), false)) ∧
    (((splitLinesJS text).map trimStr).find? startsWithHash = none →
      ∀ l, ((splitLinesJS text).map trimStr).find?
          (fun l => decide (3 < (fallbackCandidate l).length)) = some l →
        inferTitle text curText curFlag ph = (truncate60 (fallbackCandidate l), false)) ∧
    (((splitLinesJS text).map trimStr).find? startsWithHash = none →
      ((splitLinesJS text).map trimStr).find?
          (fun l => decide (3 < (fallbackCandidate l).length)) = none →
      inferTitle text curText curFlag ph =
        (if trimStr curText = [] ∨ trimStr curText = ph then (ph, true)
         else (curText, curFlag))) ∧
    inferTitle (strOf "# My Title\nbody") curText curFlag ph =
      (strOf "My Title", false) ∧
    inferTitle (strOf "ok\n- some note here") curText curFlag ph =
      (strOf "some note here", false) := by
  refine ⟨fun l h => inferTitle_heading_case text curText curFlag ph l h,
    fun h1 l h2 => inferTitle_fallback_case text curText curFlag ph l h1 h2,
    fun h1 h2 => inferTitle_no_candidate_case text curText curFlag ph h1 h2, ?_, ?_⟩
  · have h := inferTitle_heading_case (strOf "# My Title\nbody") curText curFlag ph
      (strOf "# My Title") (by decide)
    rw [h]
    decide
  · have h := inferTitle_fallback_case (strOf "ok\n- some note here") curText curFlag ph
      (strOf "- some note here") (by decide) (by decide)
    rw [h]
    decide

/-- Witness for the amended C6, at concrete heading input. -/
theorem inferTitle_characterization_witness :
    inferTitle (strOf "# T1\nx") [] false [] = (strOf "T1", false) := by
  have h := (inferTitle_characterization (strOf "# T1\nx") [] false []).1
    (strOf "# T1") (by decide)
  rw [h]
  decide

/-! ## Claim C4 -/

/-- The current note after a successful transcription appends text `t`
(space-joined, trimmed) to the raw transcript. -/
def appendedNote (cur : Note) (t : Str) : Note :=
  { cur with rawTranscription := trimStr (cur.rawTranscription ++ ' ' :: t) }

/-- The state just after the transcript append, before the enrichment calls. -/
def pipelineMidState (st : AppState) (cur : Note) (t : Str) : AppState :=
  { st with recordingStatus := statusTranscriptionComplete,
            transcriptionCalls := st.transcriptionCalls + 1,
            currentNote := some (appendedNote cur t) }

/-- The state after both enrichment calls have settled and the final status
was written — the state the `finally` block commits. -/
def pipelineEnrichedState (marked : Str → Str) (polOut elaOut : Except Str Str)
    (now : Nat) (st : AppState) (cur : Note) (t : Str) : AppState :=
  { getElaboratedNote marked elaOut now
      (getPolishedNote marked polOut now (pipelineMidState st cur t)) with
    recordingStatus := statusNotesComplete }

/-- The elaborated region's final content depends only on the region's prior
state and the raw transcript, not on anything the polish call wrote. -/
theorem getElaboratedNote_elaborated_congr (marked : Str → Str) (e : Except Str Str)
    (now : Nat) (s₁ s₂ : AppState) (h1 : s₁.elaborated = s₂.elaborated)
    (h2 : s₁.currentNote.map (fun c => c.rawTranscription) =
      s₂.currentNote.map (fun c => c.rawTranscription)) :
    (getElaboratedNote marked e now s₁).elaborated =
      (getElaboratedNote marked e now s₂).elaborated := by
  unfold getElaboratedNote
  cases hc1 : s₁.currentNote with
  | none =>
    cases hc2 : s₂.currentNote with
    | none => simp [setElaboratedPlaceholder, h1]
    | some c2 => rw [hc1, hc2] at h2; simp at h2
  | some c1 =>
    cases hc2 : s₂.currentNote with
    | none => rw [hc1, hc2] at h2; simp at h2
    | some c2 =>
      have hraw : c1.rawTranscription = c2.rawTranscription := by
        rw [hc1, hc2] at h2
        simpa using h2
      by_cases hblank : (trimStr c1.rawTranscription).isEmpty
      · have hblank2 : (trimStr c2.rawTranscription).isEmpty = true := by
          rw [← hraw]; exact hblank
        simp [hblank, hblank2, setElaboratedPlaceholder, h1]
      · have hblank2 : ¬ (trimStr c2.rawTranscription).isEmpty = true := by
          rw [← hraw]; exact hblank
        cases e with
        | error err => simp [hblank, hblank2, h1]
        | ok tx =>
          by_cases htx : tx.isEmpty
          · simp [hblank, hblank2, htx, h1]
          · by_cases htr : (trimStr tx).isEmpty <;>
              simp [hblank, hblank2, htx, htr, h1, scheduleAutoSave, hc1, hc2]

/-- Claim C4: when transcription succeeds with non-blank text, the history
commit runs exactly once, and it runs on the state obtained after both the
polish and elaborate calls have settled; a polish failure writes its inline
error into the polished region only, leaves the elaborated region unaffected
by the failure, and does not prevent the single commit. -/
theorem pipeline_commits_once_after_enrichment (marked : Str → Str)
    (elaOut : Except Str Str) (now : Nat) (st : AppState) (t : Str) (cur : Note)
    (hcur : st.currentNote = some cur) (ht : trimStr t ≠ []) :
    (∀ polOut, (getTranscription marked (Except.ok t) polOut elaOut now st).commitCalls =
      st.commitCalls + 1) ∧
    (∀ polOut, getTranscription marked (Except.ok t) polOut elaOut now st =
      saveCurrentNoteToHistory now
        (pipelineEnrichedState marked polOut elaOut now st cur t)) ∧
    (∀ e, (getTranscription marked (Except.ok t) (Except.error e) elaOut now
      st).polished.innerHTML = polishErrorHtml e) ∧
    (∀ polOut₁ polOut₂,
      (getTranscription marked (Except.ok t) polOut₁ elaOut now st).elaborated =
      (getTranscription marked (Except.ok t) polOut₂ elaOut now st).elaborated) := by
  have htne : t ≠ [] := fun h0 => ht (by rw [h0]; rfl)
  have hmain : ∀ polOut, getTranscription marked (Except.ok t) polOut elaOut now st =
      saveCurrentNoteToHistory now
        (pipelineEnrichedState marked polOut elaOut now st cur t) := by
    intro polOut
    unfold getTranscription pipelineEnrichedState pipelineMidState appendedNote
    cases t with
    | nil => exact absurd rfl htne
    | cons c cs => simp [hcur]
  have hne2 : trimStr (trimStr (cur.rawTranscription ++ ' ' :: t)) ≠ [] :=
    trimStr_trimStr_ne_nil _ (trimStr_append_right_ne _ _ ht)
  have hguard : (trimStr (trimStr (cur.rawTranscription ++ ' ' :: t))).isEmpty = false := by
    cases hx : trimStr (trimStr (cur.rawTranscription ++ ' ' :: t)) with
    | nil => exact absurd hx hne2
    | cons a as => rfl
  refine ⟨?_, hmain, ?_, ?_⟩
  · intro polOut
    rw [hmain polOut]
    simp [commit_pres, getElaboratedNote_pres, getPolishedNote_pres,
      pipelineEnrichedState, pipelineMidState]
  · intro e
    rw [hmain (Except.error e)]
    simp only [pipelineEnrichedState, commit_pres, getElaboratedNote_pres]
    simp [getPolishedNote, hguard, pipelineMidState, appendedNote]
  · intro polOut₁ polOut₂
    rw [hmain polOut₁, hmain polOut₂]
    simp only [pipelineEnrichedState, commit_pres, getElaboratedNote_pres]
    apply getElaboratedNote_elaborated_congr
    · rw [(getPolishedNote_pres marked polOut₁ now _).2.2.1,
        (getPolishedNote_pres marked polOut₂ now _).2.2.1]
    · rw [(getPolishedNote_pres marked polOut₁ now _).2.2.2.2.2.1,
        (getPolishedNote_pres marked polOut₂ now _).2.2.2.2.2.1]

/-- Witness for C4 at concrete inputs: transcript "hello", polish fails with
"boom", elaborate succeeds. -/
theorem pipeline_commits_once_after_enrichment_witness :
    (getTranscription id (Except.ok (strOf "hello")) (Except.error (strOf "boom"))
      (Except.ok (strOf "ela")) 7 wsBase).commitCalls = wsBase.commitCalls + 1 ∧
    (getTranscription id (Except.ok (strOf "hello")) (Except.error (strOf "boom"))
      (Except.ok (strOf "ela")) 7 wsBase).polished.innerHTML =
      polishErrorHtml (strOf "boom") := by
  have h := pipeline_commits_once_after_enrichment id (Except.ok (strOf "ela")) 7 wsBase
    (strOf "hello") wsNoteRaw rfl (by decide)
  exact ⟨h.1 (Except.error (strOf "boom")), h.2.2.1 (strOf "boom")⟩
